import Mathlib

/-!
Verification of the RSS-to-Blogger feed-processing pipeline
(`src/rss_to_blogger.py`) against its natural-language specification.

The Python source is shallowly embedded: pure helpers become Lean
functions over `List Char` / `String`, the per-feed worker
(`process_feed`) becomes explicit state passing over a `RunState`,
exceptions become `Except PyErr`, and the two external services (the
Groq rewrite service and the Blogger publishing service) are modelled
by per-entry oracle inputs (`rewriteResp`, `publishOk`).
-/

/-! ## Text utilities (clean_text and friends) -/

/-- ASCII whitespace, the fragment of the regex class used by
`re.sub(r"\s+", " ", text)` and `str.split()` that is relevant here. -/
def isWs (c : Char) : Bool :=
  c = ' ' || c = '\t' || c = '\n' || c = '\r'

/-- One pass of `re.sub(r"\s+", " ", text)`: every maximal run of
whitespace becomes a single space.  The flag records whether the
previous character was part of a whitespace run. -/
def squashWs (prevWs : Bool) : List Char → List Char
  | [] => []
  | c :: cs =>
    if isWs c then
      if prevWs then squashWs true cs
      else ' ' :: squashWs true cs
    else c :: squashWs false cs

/-- Drop leading whitespace (one side of Python `str.strip()`). -/
def dropWs : List Char → List Char
  | [] => []
  | c :: cs => if isWs c then dropWs cs else c :: cs

/-- Python `str.strip()`: drop whitespace from both ends. -/
def stripEnds (l : List Char) : List Char :=
  ((dropWs l).reverse |> dropWs).reverse

/-- `re.sub(r"\s+", " ", text).strip()` from `clean_text`. -/
def collapseWs (l : List Char) : List Char :=
  stripEnds (squashWs false l)

/-- Modelled from the spec (§4.1): the external markup-stripping step
(the `markdownify` library call in `clean_text`), which is outside this
repository.  Per the spec it converts markup fragments to plain text;
tag spans `<...>` are removed and ordinary text is kept.  Entity
decoding is applied afterwards, as the spec states. -/
def stripTagsGo (inTag : Bool) : List Char → List Char
  | [] => []
  | c :: cs =>
    if inTag then
      if c = '>' then stripTagsGo false cs else stripTagsGo true cs
    else
      if c = '<' then stripTagsGo true cs else c :: stripTagsGo false cs

def stripTags (l : List Char) : List Char := stripTagsGo false l

/-- Modelled from the spec (§4.1) and the Python standard library: the
`html.unescape` call in `clean_text`, which is outside this repository,
restricted to the named character references used in this development
(`amp`, `lt`, `gt`).  Each reference decodes to its character; the scan
continues after the decoded reference, so nested encodings decode by
one level per application, exactly as `html.unescape` does. -/
def unescapeEnt : List Char → List Char
  | [] => []
  | '&' :: 'a' :: 'm' :: 'p' :: ';' :: cs => '&' :: unescapeEnt cs
  | '&' :: 'l' :: 't' :: ';' :: cs => '<' :: unescapeEnt cs
  | '&' :: 'g' :: 't' :: ';' :: cs => '>' :: unescapeEnt cs
  | c :: cs => c :: unescapeEnt cs

/-- `clean_text` (src/rss_to_blogger.py:119-124): markup stripping,
then entity decoding, then whitespace collapse and strip. -/
def clean_text (s : String) : String :=
  ⟨collapseWs (unescapeEnt (stripTags s.data))⟩

/-- The word tokens of a string: maximal runs of non-whitespace, as
produced by Python `str.split()`.  `acc` is the current token, reversed. -/
def tokensGo (acc : List Char) : List Char → List (List Char)
  | [] => if acc.isEmpty then [] else [acc.reverse]
  | c :: cs =>
    if isWs c then
      if acc.isEmpty then tokensGo [] cs else acc.reverse :: tokensGo [] cs
    else tokensGo (c :: acc) cs

/-- `len(text.split())`, the word count used by `process_feed`. -/
def wordCount (s : String) : Nat :=
  (tokensGo [] s.data).length


/-! ## Anchored pattern matches of rewrite_article -/

/-- The group captured by a lazy `(.*?)\n` starting at the current
position: the characters before the first newline, or `none` when no
newline follows (the regex cannot match there, and no later occurrence
of the label can have a newline after it either). -/
def takeToNewline : List Char → Option (List Char)
  | [] => none
  | c :: cs => if c = '\n' then some [] else (takeToNewline cs).map (c :: ·)

/-- `re.search(lab + "(.*?)\n", text)`: the leftmost occurrence of the
literal label followed by a newline; the captured group is the text
strictly between them (src/rss_to_blogger.py:178-180). -/
def findLabeledLine (lab : List Char) : List Char → Option (List Char)
  | [] => none
  | c :: cs =>
    if lab.isPrefixOf (c :: cs) then takeToNewline ((c :: cs).drop lab.length)
    else findLabeledLine lab cs

/-- `re.search(lab + "(.*)", text, re.DOTALL)`: the leftmost occurrence
of the literal label; the captured group is everything after it
(src/rss_to_blogger.py:181). -/
def findLabeledRest (lab : List Char) : List Char → Option (List Char)
  | [] => none
  | c :: cs =>
    if lab.isPrefixOf (c :: cs) then some ((c :: cs).drop lab.length)
    else findLabeledRest lab cs

def titleLab : List Char := "Title: ".data
def metaLab : List Char := "Meta Description: ".data
def keywordsLab : List Char := "Keywords: ".data
def contentLab : List Char := "Content: ".data

/-! ## Data model -/

/-- One element of a media field of a feed entry; `url` is `none` when
the `"url"` key is absent (`entry[field][0].get("url", "")`). -/
structure MediaItem where
  url : Option String
deriving DecidableEq

/-- One element of the `content` field (`.get("value", "")`). -/
structure ContentItem where
  value : String
deriving DecidableEq

/-- A parsed feed entry as `process_feed` reads it.  Every field is
optional: `none` models an absent dictionary key.  `content` is a list
of items as feedparser produces it; `some []` models the key being
present but bound to an empty list. -/
structure Entry where
  title : Option String := none
  description : Option String := none
  content : Option (List ContentItem) := none
  link : Option String := none
  media_content : Option (List MediaItem) := none
  media_thumbnail : Option (List MediaItem) := none
  enclosure : Option (List MediaItem) := none
deriving DecidableEq

/-- Python exceptions that can escape the modelled code. -/
inductive PyErr where
  | indexError
deriving DecidableEq

/-- `entry.get("description", "") or entry.get("content", [{}])[0].get("value", "")`
(src/rss_to_blogger.py:254).  When the description is empty and the
`content` key is present but holds an empty list, the subscript `[0]`
raises `IndexError`. -/
def entryContent (e : Entry) : Except PyErr String :=
  let d := e.description.getD ""
  if d ≠ "" then .ok d
  else
    match e.content with
    | none => .ok ""
    | some [] => .error .indexError
    | some (c :: _) => .ok c.value

/-- ASCII lower-casing of one character, the fragment of Python
`str.lower()` relevant to the URLs handled here. -/
def lowerChar (c : Char) : Char :=
  if c.toNat ≥ 65 && c.toNat ≤ 90 then Char.ofNat (c.toNat + 32) else c

/-- `s.lower()` on ASCII text. -/
def lowerStr (s : String) : String :=
  ⟨s.data.map lowerChar⟩

/-- `s.endswith(suffix)`. -/
def strEndsWith (s suffix : String) : Bool :=
  suffix.data.isSuffixOf s.data

/-- `extract_image` checks whether a candidate URL is usable:
`url and url.lower().endswith((".jpg", ".jpeg", ".png", ".gif"))`
(src/rss_to_blogger.py:141). -/
def isImageUrl (u : String) : Bool :=
  u ≠ "" && ([".jpg", ".jpeg", ".png", ".gif"].any fun ext => strEndsWith (lowerStr u) ext)

/-- The candidate URL a single media field contributes: the `url` of the
first element when the field is present and non-empty
(src/rss_to_blogger.py:139-140). -/
def fieldFirstUrl (f : Option (List MediaItem)) : Option String :=
  match f with
  | some (m :: _) => some (m.url.getD "")
  | _ => none

/-- `extract_image` (src/rss_to_blogger.py:135-143): scan
`media_content`, `media_thumbnail`, `enclosure` in that order; for each
present non-empty field take the first element's url; return it when it
qualifies, otherwise fall through to the next field; `None` at the end. -/
def extract_image (e : Entry) : Option String :=
  match fieldFirstUrl e.media_content with
  | some u =>
    if isImageUrl u then some u
    else
      match fieldFirstUrl e.media_thumbnail with
      | some v =>
        if isImageUrl v then some v
        else
          match fieldFirstUrl e.enclosure with
          | some w => if isImageUrl w then some w else none
          | none => none
      | none =>
        match fieldFirstUrl e.enclosure with
        | some w => if isImageUrl w then some w else none
        | none => none
  | none =>
    match fieldFirstUrl e.media_thumbnail with
    | some v =>
      if isImageUrl v then some v
      else
        match fieldFirstUrl e.enclosure with
        | some w => if isImageUrl w then some w else none
        | none => none
    | none =>
      match fieldFirstUrl e.enclosure with
      | some w => if isImageUrl w then some w else none
      | none => none

/-- The ordered list of candidate URLs `extract_image` examines; used to
state its characterisation. -/
def imageCandidates (e : Entry) : List String :=
  (fieldFirstUrl e.media_content).toList
    ++ (fieldFirstUrl e.media_thumbnail).toList
    ++ (fieldFirstUrl e.enclosure).toList

/-! ## Rewrite Invoker -/

/-- The four-key dictionary `rewrite_article` returns, and the payload
`post_to_blogger_draft` validates.  `none` models an absent key. -/
structure ArticleData where
  title : Option String := none
  meta_description : Option String := none
  keywords : Option String := none
  content : Option String := none
deriving DecidableEq

/-- The response-parsing half of `rewrite_article`
(src/rss_to_blogger.py:177-188): four anchored pattern matches with
per-field fallbacks — the original title, empty strings, and the full
raw response respectively. -/
def parse_rewrite (origTitle raw : String) : ArticleData :=
  let r := raw.data
  { title := some (((findLabeledLine titleLab r).map fun l => ⟨l⟩).getD origTitle)
    meta_description := some (((findLabeledLine metaLab r).map fun l => ⟨l⟩).getD "")
    keywords := some (((findLabeledLine keywordsLab r).map fun l => ⟨l⟩).getD "")
    content := some (match findLabeledRest contentLab r with
      | some c => ⟨stripEnds c⟩
      | none => raw) }

/-- `rewrite_article` (src/rss_to_blogger.py:145-191).  The external
service call is modelled by its outcome `resp`: `none` when the call
raised (the `except` branch returns `None`), `some raw` when it
returned the text `raw`, which is then parsed with fallbacks. -/
def rewrite_article (origTitle : String) (resp : Option String) : Option ArticleData :=
  resp.map (parse_rewrite origTitle)

/-! ## Publisher -/

/-- The five run counters of `SUMMARY` (src/rss_to_blogger.py:65-71). -/
structure Summary where
  feeds_processed : Nat := 0
  articles_posted : Nat := 0
  duplicates_skipped : Nat := 0
  images_included : Nat := 0
  articles_skipped_short : Nat := 0
deriving DecidableEq

/-- The body of the `posts.insert` request sent to Blogger
(src/rss_to_blogger.py:220-227). -/
structure PostBody where
  title : String
  content : String
  labels : List String
  isDraft : Bool := true
deriving DecidableEq

/-- Result of one `post_to_blogger_draft` call.  `submitted` is the
request actually sent to the publishing service (`none` = the external
service was never contacted); `postId` is the function's return value. -/
structure PostResult where
  postId : Option Nat
  submitted : Option PostBody
  summary : Summary
deriving DecidableEq

/-- The image element prepended to the content when an image URL is
available (src/rss_to_blogger.py:210). -/
def imgTag (u t : String) : String :=
  "<img src=\x22" ++ u ++ "\x22 alt=\x22" ++ t ++
    "\x22 style=\x22max-width:100%;height:auto;\x22><br>"

/-- The source-attribution line always appended to the content
(src/rss_to_blogger.py:214). -/
def attribution (sourceUrl feedTitle : String) : String :=
  "<br><br><small>Source: <a href=\x22" ++ sourceUrl ++ "\x22>" ++ feedTitle ++
    "</a></small>"

/-- `post_to_blogger_draft` (src/rss_to_blogger.py:193-240).
`data = none` models a falsy/non-dict `article_data`; the title/content
validation returns `None` before anything else happens.  After
validation the image (when truthy) is prepended and `images_included`
incremented, the attribution is appended, and only then is the
publishing service contacted; `publishOk` models whether the
`posts.insert(...).execute()` call succeeded — on failure the `except`
branch returns `None` without touching `articles_posted`.  A missing
`keywords` key raises `KeyError` inside the same `try`, which is caught
and also yields `None` (after the image increment). -/
def post_to_blogger_draft (data : Option ArticleData) (feedTitle : String)
    (imageUrl : Option String) (sourceUrl : String) (publishOk : Bool)
    (sm : Summary) : PostResult :=
  match data with
  | none => ⟨none, none, sm⟩
  | some a =>
    match a.title with
    | none => ⟨none, none, sm⟩
    | some t =>
      if t = "" then ⟨none, none, sm⟩
      else
        match a.content with
        | none => ⟨none, none, sm⟩
        | some c =>
          if c = "" then ⟨none, none, sm⟩
          else
            let withImg :=
              match imageUrl with
              | some u => if u ≠ "" then (imgTag u t ++ c, true) else (c, false)
              | none => (c, false)
            let sm1 :=
              if withImg.2 then
                { sm with images_included := sm.images_included + 1 }
              else sm
            let body := withImg.1 ++ attribution sourceUrl feedTitle
            match a.keywords with
            | none => ⟨none, none, sm1⟩
            | some kw =>
              let labels := if kw ≠ "" then kw.splitOn ", " else ["News"]
              if publishOk then
                ⟨some 1, some ⟨t, body, labels, true⟩,
                  { sm1 with articles_posted := sm1.articles_posted + 1 }⟩
              else ⟨none, some ⟨t, body, labels, true⟩, sm1⟩

/-! ## Feed Worker -/

/-- The deduplication key: `(title, source_url)`
(src/rss_to_blogger.py:259). -/
abbrev Ident := String × String

/-- One line of the skip log written by `log_skipped_article`
(src/rss_to_blogger.py:126-133); the timestamp is not modelled. -/
structure SkipRec where
  title : String
  feed : String
  reason : String
  wc : Option Nat
deriving DecidableEq

/-- The process-wide mutable state a feed worker touches:
`PROCESSED_ARTICLES`, `SUMMARY`, the skip-log file, and (as the
observable trace of the external rewrite service) the list of
identifiers for which `rewrite_article` was invoked. -/
structure RunState where
  processed : List Ident := []
  summary : Summary := {}
  skipLog : List SkipRec := []
  rewriteCalls : List Ident := []
deriving DecidableEq

/-- `PROCESSED_ARTICLES.add(identifier)`: set insertion. -/
def insertIdent (i : Ident) (l : List Ident) : List Ident :=
  if i ∈ l then l else l ++ [i]

/-- The identifier of an entry: `entry.get("title", "No Title")` and
`entry.get("link", "")` (src/rss_to_blogger.py:253-259). -/
def identOf (e : Entry) : Ident :=
  (e.title.getD "No Title", e.link.getD "")

/-- An entry together with the outcomes of its external calls:
`rewriteResp` is the rewrite service's response text (`none` = the call
raised) and `publishOk` whether the Blogger insert succeeds for it. -/
structure EntryCase where
  entry : Entry
  rewriteResp : Option String := none
  publishOk : Bool := false
deriving DecidableEq

/-- The duplicate-skip branch of the strict pass
(src/rss_to_blogger.py:261-265): log the skip and increment
`duplicates_skipped`. -/
def dupSkipStrict (feedUrl title : String) (st : RunState) : RunState :=
  { st with
    summary := { st.summary with
      duplicates_skipped := st.summary.duplicates_skipped + 1 }
    skipLog := st.skipLog ++ [⟨title, feedUrl, "Duplicate article", none⟩] }

/-- The short-article-skip branch of the strict pass
(src/rss_to_blogger.py:270-275): log the skip with the exact word count
and increment `articles_skipped_short`.  The processed set is untouched. -/
def shortSkip (feedUrl title : String) (wc : Nat) (st : RunState) : RunState :=
  { st with
    summary := { st.summary with
      articles_skipped_short := st.summary.articles_skipped_short + 1 }
    skipLog := st.skipLog ++ [⟨title, feedUrl, "Below word count", some wc⟩] }

/-- The shared mark/rewrite/publish tail of both passes
(src/rss_to_blogger.py:277-285 and 311-319): add the identifier to
`PROCESSED_ARTICLES`, invoke the rewrite service, and on success post
to Blogger; the returned `Nat` is the increment of the worker's local
`articles_processed` — 1 exactly when `rewrite_article` returned a
result, regardless of whether the publish succeeded. -/
def coreProcess (feedUrl feedTitle : String) (ec : EntryCase)
    (st : RunState) : RunState × Nat :=
  let ident := identOf ec.entry
  let st1 := { st with
    processed := insertIdent ident st.processed
    rewriteCalls := st.rewriteCalls ++ [ident] }
  match rewrite_article ident.1 ec.rewriteResp with
  | none => (st1, 0)
  | some art =>
    let pr := post_to_blogger_draft (some art) feedTitle
      (extract_image ec.entry) ident.2 ec.publishOk st1.summary
    ({ st1 with summary := pr.summary }, 1)

/-- One strict-pass loop iteration of `process_feed`
(src/rss_to_blogger.py:251-288): read the entry (content extraction may
raise), skip duplicates with a counter bump and a log line, skip short
articles with a counter bump and a log line, otherwise process. -/
def processEntryStrict (feedUrl feedTitle : String) (minWC : Int)
    (ec : EntryCase) (st : RunState) : RunState × Except PyErr Nat :=
  match entryContent ec.entry with
  | .error e => (st, .error e)
  | .ok content =>
    let ident := identOf ec.entry
    if ident ∈ st.processed then (dupSkipStrict feedUrl ident.1 st, .ok 0)
    else
      let wc := wordCount (clean_text content)
      if (wc : Int) < minWC then (shortSkip feedUrl ident.1 wc st, .ok 0)
      else
        let p := coreProcess feedUrl feedTitle ec st
        (p.1, .ok p.2)

/-- One relaxed-pass loop iteration of `process_feed`
(src/rss_to_blogger.py:296-319): duplicates are skipped silently (no
counter, no log line) and there is no word-count check at all. -/
def processEntryRelaxed (feedUrl feedTitle : String) (ec : EntryCase)
    (st : RunState) : RunState × Except PyErr Nat :=
  match entryContent ec.entry with
  | .error e => (st, .error e)
  | .ok _content =>
    let ident := identOf ec.entry
    if ident ∈ st.processed then (st, .ok 0)
    else
      let p := coreProcess feedUrl feedTitle ec st
      (p.1, .ok p.2)

/-- The strict-pass `while` loop (src/rss_to_blogger.py:250-288):
iterate in feed order while the quota is unmet; `n` is
`articles_processed`.  An uncaught exception aborts the pass with the
state mutated so far. -/
def passStrict (feedUrl feedTitle : String) (minWC : Int) (quota : Nat) :
    List EntryCase → Nat → RunState → RunState × Except PyErr Nat
  | [], n, st => (st, .ok n)
  | ec :: rest, n, st =>
    if n < quota then
      match processEntryStrict feedUrl feedTitle minWC ec st with
      | (st1, .ok k) => passStrict feedUrl feedTitle minWC quota rest (n + k) st1
      | (st1, .error e) => (st1, .error e)
    else (st, .ok n)

/-- The relaxed-pass `while` loop (src/rss_to_blogger.py:295-321). -/
def passRelaxed (feedUrl feedTitle : String) (quota : Nat) :
    List EntryCase → Nat → RunState → RunState × Except PyErr Nat
  | [], n, st => (st, .ok n)
  | ec :: rest, n, st =>
    if n < quota then
      match processEntryRelaxed feedUrl feedTitle ec st with
      | (st1, .ok k) => passRelaxed feedUrl feedTitle quota rest (n + k) st1
      | (st1, .error e) => (st1, .error e)
    else (st, .ok n)

/-- `feed.feed.get("title", "Unknown_Feed").replace(" ", "_")`
(src/rss_to_blogger.py:245); the pattern is the single character
`" "`, so the replacement is a character map. -/
def deriveFeedTitle (raw : Option String) : String :=
  ⟨(raw.getD "Unknown_Feed").data.map fun c => if c = ' ' then '_' else c⟩

/-- The log line written before the relaxed retry
(src/rss_to_blogger.py:293). -/
def logRetry (feedUrl : String) (st : RunState) : RunState :=
  { st with skipLog := st.skipLog ++
      [⟨"N/A", feedUrl, "Insufficient articles, retrying with min_word_count=-1", none⟩] }

/-- The end-of-feed `feeds_processed` increment
(src/rss_to_blogger.py:324-325). -/
def bumpFeeds (st : RunState) : RunState :=
  { st with summary := { st.summary with
      feeds_processed := st.summary.feeds_processed + 1 } }

/-- `process_feed` (src/rss_to_blogger.py:242-326): the strict pass; if
the quota is unmet and the minimum word count is not already `-1`, a
relaxed pass over the same entries from the start; then the
`feeds_processed` increment and the return of `articles_processed`.
An uncaught exception propagates (there is no `try` in the function). -/
def process_feed (feedUrl : String) (feedTitleRaw : Option String)
    (cases : List EntryCase) (quota : Nat) (minWC : Int)
    (st : RunState) : RunState × Except PyErr Nat :=
  match passStrict feedUrl (deriveFeedTitle feedTitleRaw) minWC quota cases 0 st with
  | (st1, .error e) => (st1, .error e)
  | (st1, .ok n1) =>
    if n1 < quota ∧ minWC ≠ -1 then
      match passRelaxed feedUrl (deriveFeedTitle feedTitleRaw) quota cases n1
          (logRetry feedUrl st1) with
      | (st3, .error e) => (st3, .error e)
      | (st3, .ok n2) => (bumpFeeds st3, .ok n2)
    else (bumpFeeds st1, .ok n1)

/-! ## Pipeline Driver -/

/-- `ARTICLES_PER_FEED` (src/rss_to_blogger.py:53). -/
def ARTICLES_PER_FEED : Nat := 4

/-- `MIN_WORD_COUNT` (src/rss_to_blogger.py:55). -/
def MIN_WORD_COUNT : Int := 15

/-- One configured feed with its parsed result. -/
structure FeedJob where
  url : String
  feedTitleRaw : Option String := none
  cases : List EntryCase := []
deriving DecidableEq

/-- Outcome of `main`: the final shared state and whether the summary
artifact was written. -/
structure PipelineResult where
  state : RunState
  summaryWritten : Bool
deriving DecidableEq

/-- One pool task as `main` runs it: `executor.map` stores any exception
the worker raises in its future, which is never consumed, so the
exception is swallowed and only the state mutations made before the
raise survive (src/rss_to_blogger.py:346-347). -/
def runWorkerSwallow (quota : Nat) (minWC : Int) (st : RunState)
    (j : FeedJob) : RunState :=
  (process_feed j.url j.feedTitleRaw j.cases quota minWC st).1

/-- `main` (src/rss_to_blogger.py:342-350): run every feed worker, then
unconditionally `generate_summary()`.  Workers are modelled in feed
order; claim C3 treats the interleaving of the shared dedup state
separately. -/
def mainRun (jobs : List FeedJob) (st0 : RunState) : PipelineResult :=
  ⟨jobs.foldl (runWorkerSwallow ARTICLES_PER_FEED MIN_WORD_COUNT) st0, true⟩

/-! ## Duplicate Tracker under concurrency (claim C3)

The code takes the lock twice per entry: once for the membership test
(src/rss_to_blogger.py:260-265) and once, after the unlocked
clean/word-count work, for the insertion (src/rss_to_blogger.py:278-279).
Each lock-protected section is one atomic step of this model; two
workers race on their identifiers and a schedule chooses who moves. -/

/-- Program counter of one worker's duplicate handling: 0 = before the
membership test, 1 = between the two critical sections, 2 = done. -/
structure RaceWorker where
  pc : Nat := 0
  /-- The result of the membership test: `some true` means the worker
  observed its identifier as absent ("newly added") and will proceed to
  rewrite and publish it. -/
  sawAbsent : Option Bool := none
deriving DecidableEq

structure RaceState where
  shared : List Ident := []
  a : RaceWorker := {}
  b : RaceWorker := {}
deriving DecidableEq

/-- One atomic step of one worker: the lock-protected membership test,
then the lock-protected insertion. -/
def raceWorkerStep (ident : Ident) (shared : List Ident) (w : RaceWorker) :
    List Ident × RaceWorker :=
  match w.pc with
  | 0 => (shared, { pc := 1, sawAbsent := some (decide (ident ∉ shared)) })
  | 1 => (insertIdent ident shared, { w with pc := 2 })
  | _ => (shared, w)

/-- One scheduled step: `true` moves worker A, `false` worker B. -/
def raceStep (idA idB : Ident) (s : RaceState) (moveA : Bool) : RaceState :=
  if moveA then
    let p := raceWorkerStep idA s.shared s.a
    { s with shared := p.1, a := p.2 }
  else
    let p := raceWorkerStep idB s.shared s.b
    { s with shared := p.1, b := p.2 }

/-- Run a schedule from an initial shared set. -/
def runRace (idA idB : Ident) (sched : List Bool) (shared0 : List Ident) :
    RaceState :=
  sched.foldl (raceStep idA idB) { shared := shared0 }

/-! ## Spec-side definitions (refinement comparisons) -/

/-- Modelled from the spec (§4.2, claim C7): the *path* of a URL — the
portion before any query string (`?`) or fragment (`#`) — which is what
the spec says the raster-image extension check applies to. -/
def specUrlPath (u : String) : String :=
  ⟨(u.data.takeWhile fun c => c ≠ '?').takeWhile fun c => c ≠ '#'⟩

/-- Modelled from the spec (§4.2, claim C7): whether a URL's path ends
in a recognized raster-image extension, case-insensitively. -/
def specPathIsImage (u : String) : Bool :=
  [".jpg", ".jpeg", ".png", ".gif"].any fun ext =>
    strEndsWith (lowerStr (specUrlPath u)) ext

/-- No two adjacent whitespace characters. -/
def wsR (a b : Char) : Prop := ¬(isWs a = true ∧ isWs b = true)


/-! ## Concrete runs used by counterexamples and witnesses -/

/-- Fifteen words: exactly `MIN_WORD_COUNT` after cleaning. -/
def longContent : String :=
  "alpha bravo charlie delta echo foxtrot golf hotel india juliet kilo lima mike november oscar"


/-- A short entry (2 words) with identifier `("A", "http://u")`. -/
def c1e1 : EntryCase :=
  { entry := { title := some "A", description := some "tiny story",
               link := some "http://u" } }

/-- A long entry with the same identifier `("A", "http://u")`; its
rewrite and publish both succeed. -/
def c1e2 : EntryCase :=
  { entry := { title := some "A", description := some longContent,
               link := some "http://u" },
    rewriteResp := some "x", publishOk := true }

/-- A long entry whose rewrite succeeds but whose publish fails. -/
def c2e : EntryCase :=
  { entry := { title := some "B", description := some longContent,
               link := some "http://v" },
    rewriteResp := some "y", publishOk := false }

/-- An entry whose `content` key is present but holds an empty list, so
reading its content raises `IndexError` (src/rss_to_blogger.py:254). -/
def c9bad : EntryCase :=
  { entry := { title := some "T", content := some [], link := some "http://u" } }

/-- A perfectly good entry placed after the crashing one. -/
def c9good : EntryCase :=
  { entry := { title := some "G", description := some longContent,
               link := some "http://w" },
    rewriteResp := some "z", publishOk := true }

/-- A long entry whose rewrite-service call raises. -/
def c9soft : EntryCase :=
  { entry := { title := some "S", description := some longContent,
               link := some "http://s" } }

/-- A feed entry whose only media URL has a path ending in `.jpg` but
carries a query string. -/
def c7Entry : Entry :=
  { media_content := some [⟨some "http://ex.com/pic.jpg?width=100"⟩] }



/-- The dedup/trace invariant: every identifier for which the rewrite
service was invoked is in the processed set, and no identifier was sent
to the service twice. -/
def DedupInv (st : RunState) : Prop :=
  st.rewriteCalls.Nodup ∧ ∀ j ∈ st.rewriteCalls, j ∈ st.processed

/-! ## Sanity evaluations of the text utilities -/

theorem clean_text_collapses : clean_text "  hello   world " = "hello world" := by
  decide

theorem wordCount_eval : wordCount "one two  three" = 3 := by
  decide

theorem clean_text_decodes_once : clean_text "&amp;amp;" = "&amp;" ∧ clean_text "&amp;" = "&" := by
  decide

theorem clean_text_strips_markup : clean_text "a<p>b</p>" = "ab" := by
  decide

theorem wordCount_longContent : wordCount (clean_text longContent) = 15 := by
  decide

theorem parse_rewrite_labeled :
    parse_rewrite "Orig" "Title: A\nMeta Description: m\nKeywords: k\nContent: body" =
      { title := some "A", meta_description := some "m", keywords := some "k",
        content := some "body" } := by
  decide

theorem parse_rewrite_unlabeled :
    parse_rewrite "Orig" "no labels at all" =
      { title := some "Orig", meta_description := some "", keywords := some "",
        content := some "no labels at all" } := by
  decide

/-! ## Helper lemmas about the worker's state transformers -/

theorem mem_insertIdent (j i : Ident) (l : List Ident) :
    j ∈ insertIdent i l ↔ j = i ∨ j ∈ l := by
  unfold insertIdent
  by_cases h : i ∈ l <;> simp [h]
  · rintro rfl; exact h
  · exact or_comm

/-- `post_to_blogger_draft` touches only `images_included` and
`articles_posted`; the latter grows by at most one, and not at all when
the submission fails. -/
theorem post_summary_facts (data : Option ArticleData) (ft : String)
    (img : Option String) (src : String) (ok : Bool) (sm : Summary) :
    (post_to_blogger_draft data ft img src ok sm).summary.duplicates_skipped
        = sm.duplicates_skipped ∧
    (post_to_blogger_draft data ft img src ok sm).summary.articles_skipped_short
        = sm.articles_skipped_short ∧
    (post_to_blogger_draft data ft img src ok sm).summary.feeds_processed
        = sm.feeds_processed ∧
    sm.articles_posted ≤ (post_to_blogger_draft data ft img src ok sm).summary.articles_posted ∧
    (post_to_blogger_draft data ft img src ok sm).summary.articles_posted
        ≤ sm.articles_posted + 1 ∧
    (ok = false →
      (post_to_blogger_draft data ft img src ok sm).summary.articles_posted
        = sm.articles_posted) := by
  unfold post_to_blogger_draft
  repeat' split
  all_goals simp_all

/-- State effects of the shared mark/rewrite/publish tail. -/
theorem coreProcess_facts (fu ft : String) (ec : EntryCase) (st : RunState) :
    (coreProcess fu ft ec st).1.processed
        = insertIdent (identOf ec.entry) st.processed ∧
    (coreProcess fu ft ec st).1.rewriteCalls
        = st.rewriteCalls ++ [identOf ec.entry] ∧
    (coreProcess fu ft ec st).1.skipLog = st.skipLog ∧
    (coreProcess fu ft ec st).1.summary.duplicates_skipped
        = st.summary.duplicates_skipped ∧
    (coreProcess fu ft ec st).1.summary.articles_skipped_short
        = st.summary.articles_skipped_short ∧
    (coreProcess fu ft ec st).1.summary.feeds_processed
        = st.summary.feeds_processed ∧
    st.summary.articles_posted ≤ (coreProcess fu ft ec st).1.summary.articles_posted ∧
    (coreProcess fu ft ec st).1.summary.articles_posted
        ≤ st.summary.articles_posted + (coreProcess fu ft ec st).2 ∧
    (ec.rewriteResp = none → (coreProcess fu ft ec st).2 = 0 ∧
      (coreProcess fu ft ec st).1.summary = st.summary) ∧
    (∀ r, ec.rewriteResp = some r → (coreProcess fu ft ec st).2 = 1) ∧
    (ec.publishOk = false →
      (coreProcess fu ft ec st).1.summary.articles_posted
        = st.summary.articles_posted) := by
  unfold coreProcess
  rcases hresp : ec.rewriteResp with _ | r <;>
    simp only [rewrite_article, hresp, Option.map_none, Option.map_some] <;> simp
  have h := post_summary_facts (some (parse_rewrite (identOf ec.entry).1 r)) ft
    (extract_image ec.entry) (identOf ec.entry).2 ec.publishOk st.summary
  exact ⟨h.1, h.2.1, h.2.2.1, h.2.2.2.1, h.2.2.2.2.1, h.2.2.2.2.2⟩

/-- Exhaustive description of one strict-pass iteration. -/
theorem processEntryStrict_cases (fu ft : String) (minWC : Int)
    (ec : EntryCase) (st : RunState) :
    (∀ e, entryContent ec.entry = .error e →
      processEntryStrict fu ft minWC ec st = (st, .error e)) ∧
    (∀ content, entryContent ec.entry = .ok content →
      (identOf ec.entry ∈ st.processed →
        processEntryStrict fu ft minWC ec st
          = (dupSkipStrict fu (identOf ec.entry).1 st, .ok 0)) ∧
      (identOf ec.entry ∉ st.processed →
        ((wordCount (clean_text content) : Int) < minWC →
          processEntryStrict fu ft minWC ec st
            = (shortSkip fu (identOf ec.entry).1 (wordCount (clean_text content)) st,
                .ok 0)) ∧
        (¬ (wordCount (clean_text content) : Int) < minWC →
          processEntryStrict fu ft minWC ec st
            = ((coreProcess fu ft ec st).1, .ok (coreProcess fu ft ec st).2)))) := by
  refine ⟨fun e he => ?_, fun content hc => ⟨fun hdup => ?_, fun hdup => ⟨fun hwc => ?_, fun hwc => ?_⟩⟩⟩ <;>
    unfold processEntryStrict <;> simp_all

/-- Exhaustive description of one relaxed-pass iteration. -/
theorem processEntryRelaxed_cases (fu ft : String) (ec : EntryCase)
    (st : RunState) :
    (∀ e, entryContent ec.entry = .error e →
      processEntryRelaxed fu ft ec st = (st, .error e)) ∧
    (∀ content, entryContent ec.entry = .ok content →
      (identOf ec.entry ∈ st.processed →
        processEntryRelaxed fu ft ec st = (st, .ok 0)) ∧
      (identOf ec.entry ∉ st.processed →
        processEntryRelaxed fu ft ec st
          = ((coreProcess fu ft ec st).1, .ok (coreProcess fu ft ec st).2))) := by
  refine ⟨fun e he => ?_, fun content hc => ⟨fun hdup => ?_, fun hdup => ?_⟩⟩ <;>
    unfold processEntryRelaxed <;> simp_all

/-- Facts preserved by one successful strict-pass iteration. -/
theorem processEntryStrict_ok_facts (fu ft : String) (minWC : Int)
    (ec : EntryCase) (st stm : RunState) (k : Nat)
    (h : processEntryStrict fu ft minWC ec st = (stm, .ok k)) :
    stm.summary.feeds_processed = st.summary.feeds_processed ∧
    st.summary.articles_posted ≤ stm.summary.articles_posted ∧
    stm.summary.articles_posted ≤ st.summary.articles_posted + k ∧
    (∀ i, i ∈ st.processed → i ∈ stm.processed) ∧
    (DedupInv st → DedupInv stm) := by
  have hcases := processEntryStrict_cases fu ft minWC ec st
  rcases hc : entryContent ec.entry with e | content
  · rw [hcases.1 e hc] at h; simp at h
  · by_cases hdup : identOf ec.entry ∈ st.processed
    · rw [(hcases.2 content hc).1 hdup, Prod.mk.injEq] at h
      obtain ⟨h1, h2⟩ := h
      injection h2 with h2
      subst h1; subst h2
      simp [dupSkipStrict, DedupInv]
    · by_cases hwc : (wordCount (clean_text content) : Int) < minWC
      · rw [(((hcases.2 content hc).2 hdup).1 hwc), Prod.mk.injEq] at h
        obtain ⟨h1, h2⟩ := h
        injection h2 with h2
        subst h1; subst h2
        simp [shortSkip, DedupInv]
      · rw [(((hcases.2 content hc).2 hdup).2 hwc), Prod.mk.injEq] at h
        obtain ⟨h1, h2⟩ := h
        injection h2 with h2
        subst h1; subst h2
        have hf := coreProcess_facts fu ft ec st
        refine ⟨hf.2.2.2.2.2.1, hf.2.2.2.2.2.2.1, hf.2.2.2.2.2.2.2.1, ?_, ?_⟩
        · intro i hi
          rw [hf.1, mem_insertIdent]
          exact Or.inr hi
        · rintro ⟨hnd, hsub⟩
          constructor
          · rw [hf.2.1]
            have hni : identOf ec.entry ∉ st.rewriteCalls :=
              fun hmem => hdup (hsub _ hmem)
            simp [List.nodup_append, hnd, hni]
          · intro j hj
            rw [hf.2.1] at hj
            rw [hf.1, mem_insertIdent]
            rcases List.mem_append.mp hj with hj | hj
            · exact Or.inr (hsub _ hj)
            · simp at hj; exact Or.inl hj

/-- Facts preserved by one successful relaxed-pass iteration; the
relaxed pass additionally never touches `duplicates_skipped`,
`articles_skipped_short` or the skip log. -/
theorem processEntryRelaxed_ok_facts (fu ft : String)
    (ec : EntryCase) (st stm : RunState) (k : Nat)
    (h : processEntryRelaxed fu ft ec st = (stm, .ok k)) :
    stm.summary.feeds_processed = st.summary.feeds_processed ∧
    st.summary.articles_posted ≤ stm.summary.articles_posted ∧
    stm.summary.articles_posted ≤ st.summary.articles_posted + k ∧
    stm.summary.duplicates_skipped = st.summary.duplicates_skipped ∧
    stm.summary.articles_skipped_short = st.summary.articles_skipped_short ∧
    stm.skipLog = st.skipLog ∧
    (∀ i, i ∈ st.processed → i ∈ stm.processed) ∧
    (DedupInv st → DedupInv stm) := by
  have hcases := processEntryRelaxed_cases fu ft ec st
  rcases hc : entryContent ec.entry with e | content
  · rw [hcases.1 e hc] at h; simp at h
  · by_cases hdup : identOf ec.entry ∈ st.processed
    · rw [(hcases.2 content hc).1 hdup, Prod.mk.injEq] at h
      obtain ⟨h1, h2⟩ := h
      injection h2 with h2
      subst h1; subst h2
      simp [DedupInv]
    · rw [(hcases.2 content hc).2 hdup, Prod.mk.injEq] at h
      obtain ⟨h1, h2⟩ := h
      injection h2 with h2
      subst h1; subst h2
      have hf := coreProcess_facts fu ft ec st
      refine ⟨hf.2.2.2.2.2.1, hf.2.2.2.2.2.2.1, hf.2.2.2.2.2.2.2.1,
        hf.2.2.2.1, hf.2.2.2.2.1, hf.2.2.1, ?_, ?_⟩
      · intro i hi
        rw [hf.1, mem_insertIdent]
        exact Or.inr hi
      · rintro ⟨hnd, hsub⟩
        constructor
        · rw [hf.2.1]
          have hni : identOf ec.entry ∉ st.rewriteCalls :=
            fun hmem => hdup (hsub _ hmem)
          simp [List.nodup_append, hnd, hni]
        · intro j hj
          rw [hf.2.1] at hj
          rw [hf.1, mem_insertIdent]
          rcases List.mem_append.mp hj with hj | hj
          · exact Or.inr (hsub _ hj)
          · simp at hj; exact Or.inl hj

/-- Invariant carried through the whole strict pass. -/
theorem passStrict_inv (fu ft : String) (minWC : Int) (quota : Nat) :
    ∀ (cs : List EntryCase) (n0 : Nat) (st st1 : RunState) (r : Except PyErr Nat),
      passStrict fu ft minWC quota cs n0 st = (st1, r) →
      st1.summary.feeds_processed = st.summary.feeds_processed ∧
      st.summary.articles_posted ≤ st1.summary.articles_posted ∧
      (∀ n, r = .ok n → n0 ≤ n ∧
        st1.summary.articles_posted + n0 ≤ st.summary.articles_posted + n) ∧
      (∀ i, i ∈ st.processed → i ∈ st1.processed) ∧
      (DedupInv st → DedupInv st1) := by
  intro cs
  induction cs with
  | nil =>
    intro n0 st st1 r h
    unfold passStrict at h
    rw [Prod.mk.injEq] at h
    obtain ⟨h1, h2⟩ := h
    subst h1
    refine ⟨rfl, le_refl _, ?_, fun i hi => hi, id⟩
    intro n hn
    rw [← h2] at hn
    injection hn with hn
    subst hn
    exact ⟨le_refl _, le_refl _⟩
  | cons ec rest ih =>
    intro n0 st st1 r h
    unfold passStrict at h
    by_cases hq : n0 < quota
    · rw [if_pos hq] at h
      rcases hstep : processEntryStrict fu ft minWC ec st with ⟨stm, rm⟩
      rw [hstep] at h
      rcases rm with e | k
      · rw [Prod.mk.injEq] at h
        obtain ⟨h1, h2⟩ := h
        subst h1
        have hcases := processEntryStrict_cases fu ft minWC ec st
        rcases hc : entryContent ec.entry with e2 | content
        · rw [hcases.1 e2 hc, Prod.mk.injEq] at hstep
          obtain ⟨hs1, _⟩ := hstep
          subst hs1
          refine ⟨rfl, le_refl _, ?_, fun i hi => hi, id⟩
          intro n hn
          rw [← h2] at hn; cases hn
        · by_cases hdup : identOf ec.entry ∈ st.processed
          · rw [(hcases.2 content hc).1 hdup, Prod.mk.injEq] at hstep
            obtain ⟨_, hs2⟩ := hstep; cases hs2
          · by_cases hwc : (wordCount (clean_text content) : Int) < minWC
            · rw [((hcases.2 content hc).2 hdup).1 hwc, Prod.mk.injEq] at hstep
              obtain ⟨_, hs2⟩ := hstep; cases hs2
            · rw [((hcases.2 content hc).2 hdup).2 hwc, Prod.mk.injEq] at hstep
              obtain ⟨_, hs2⟩ := hstep; cases hs2
      · have hstepf := processEntryStrict_ok_facts fu ft minWC ec st stm k hstep
        have hrest := ih (n0 + k) stm st1 r h
        refine ⟨hrest.1.trans hstepf.1, hstepf.2.1.trans hrest.2.1, ?_,
          fun i hi => hrest.2.2.2.1 i (hstepf.2.2.2.1 i hi),
          fun hinv => hrest.2.2.2.2 (hstepf.2.2.2.2 hinv)⟩
        intro n hn
        have hr := hrest.2.2.1 n hn
        have h1 := hstepf.2.1
        have h2 := hstepf.2.2.1
        exact ⟨by omega, by omega⟩
    · rw [if_neg hq, Prod.mk.injEq] at h
      obtain ⟨h1, h2⟩ := h
      subst h1
      refine ⟨rfl, le_refl _, ?_, fun i hi => hi, id⟩
      intro n hn
      rw [← h2] at hn
      injection hn with hn
      subst hn
      exact ⟨le_refl _, le_refl _⟩

/-- Invariant carried through the whole relaxed pass: in particular the
relaxed pass never changes `duplicates_skipped`,
`articles_skipped_short` or the skip log. -/
theorem passRelaxed_inv (fu ft : String) (quota : Nat) :
    ∀ (cs : List EntryCase) (n0 : Nat) (st st1 : RunState) (r : Except PyErr Nat),
      passRelaxed fu ft quota cs n0 st = (st1, r) →
      st1.summary.feeds_processed = st.summary.feeds_processed ∧
      st.summary.articles_posted ≤ st1.summary.articles_posted ∧
      (∀ n, r = .ok n → n0 ≤ n ∧
        st1.summary.articles_posted + n0 ≤ st.summary.articles_posted + n) ∧
      st1.summary.duplicates_skipped = st.summary.duplicates_skipped ∧
      st1.summary.articles_skipped_short = st.summary.articles_skipped_short ∧
      st1.skipLog = st.skipLog ∧
      (∀ i, i ∈ st.processed → i ∈ st1.processed) ∧
      (DedupInv st → DedupInv st1) := by
  intro cs
  induction cs with
  | nil =>
    intro n0 st st1 r h
    unfold passRelaxed at h
    rw [Prod.mk.injEq] at h
    obtain ⟨h1, h2⟩ := h
    subst h1
    refine ⟨rfl, le_refl _, ?_, rfl, rfl, rfl, fun i hi => hi, id⟩
    intro n hn
    rw [← h2] at hn
    injection hn with hn
    subst hn
    exact ⟨le_refl _, le_refl _⟩
  | cons ec rest ih =>
    intro n0 st st1 r h
    unfold passRelaxed at h
    by_cases hq : n0 < quota
    · rw [if_pos hq] at h
      rcases hstep : processEntryRelaxed fu ft ec st with ⟨stm, rm⟩
      rw [hstep] at h
      rcases rm with e | k
      · rw [Prod.mk.injEq] at h
        obtain ⟨h1, h2⟩ := h
        subst h1
        have hcases := processEntryRelaxed_cases fu ft ec st
        rcases hc : entryContent ec.entry with e2 | content
        · rw [hcases.1 e2 hc, Prod.mk.injEq] at hstep
          obtain ⟨hs1, _⟩ := hstep
          subst hs1
          refine ⟨rfl, le_refl _, ?_, rfl, rfl, rfl, fun i hi => hi, id⟩
          intro n hn
          rw [← h2] at hn; cases hn
        · by_cases hdup : identOf ec.entry ∈ st.processed
          · rw [(hcases.2 content hc).1 hdup, Prod.mk.injEq] at hstep
            obtain ⟨_, hs2⟩ := hstep; cases hs2
          · rw [(hcases.2 content hc).2 hdup, Prod.mk.injEq] at hstep
            obtain ⟨_, hs2⟩ := hstep; cases hs2
      · have hstepf := processEntryRelaxed_ok_facts fu ft ec st stm k hstep
        have hrest := ih (n0 + k) stm st1 r h
        refine ⟨hrest.1.trans hstepf.1, hstepf.2.1.trans hrest.2.1, ?_,
          hrest.2.2.2.1.trans hstepf.2.2.2.1,
          hrest.2.2.2.2.1.trans hstepf.2.2.2.2.1,
          hrest.2.2.2.2.2.1.trans hstepf.2.2.2.2.2.1,
          fun i hi => hrest.2.2.2.2.2.2.1 i (hstepf.2.2.2.2.2.2.1 i hi),
          fun hinv => hrest.2.2.2.2.2.2.2 (hstepf.2.2.2.2.2.2.2 hinv)⟩
        intro n hn
        have hr := hrest.2.2.1 n hn
        have h1 := hstepf.2.1
        have h2 := hstepf.2.2.1
        exact ⟨by omega, by omega⟩
    · rw [if_neg hq, Prod.mk.injEq] at h
      obtain ⟨h1, h2⟩ := h
      subst h1
      refine ⟨rfl, le_refl _, ?_, rfl, rfl, rfl, fun i hi => hi, id⟩
      intro n hn
      rw [← h2] at hn
      injection hn with hn
      subst hn
      exact ⟨le_refl _, le_refl _⟩

/-- `logRetry` and `bumpFeeds` do not affect the dedup invariant. -/
theorem dedupInv_logRetry (fu : String) (st : RunState) :
    DedupInv (logRetry fu st) ↔ DedupInv st := by
  simp [DedupInv, logRetry]

/-- The dedup invariant survives a whole `process_feed` call, whether it
completes or aborts with an exception. -/
theorem process_feed_inv (fu : String) (ftr : Option String)
    (cs : List EntryCase) (quota : Nat) (minWC : Int) (st st1 : RunState)
    (r : Except PyErr Nat)
    (h : process_feed fu ftr cs quota minWC st = (st1, r)) :
    DedupInv st → DedupInv st1 := by
  intro hinv
  unfold process_feed at h
  rcases hp1 : passStrict fu (deriveFeedTitle ftr) minWC quota cs 0 st with ⟨stA, rA⟩
  rw [hp1] at h
  have hA := (passStrict_inv fu (deriveFeedTitle ftr) minWC quota cs 0 st stA rA hp1).2.2.2.2 hinv
  rcases rA with e | n1
  · dsimp only at h
    rw [Prod.mk.injEq] at h
    obtain ⟨h1, _⟩ := h
    subst h1; exact hA
  · dsimp only at h
    by_cases hretry : n1 < quota ∧ minWC ≠ -1
    · rw [if_pos hretry] at h
      rcases hp2 : passRelaxed fu (deriveFeedTitle ftr) quota cs n1 (logRetry fu stA)
        with ⟨stB, rB⟩
      rw [hp2] at h
      have hB := (passRelaxed_inv fu (deriveFeedTitle ftr) quota cs n1 (logRetry fu stA)
        stB rB hp2).2.2.2.2.2.2.2 ((dedupInv_logRetry fu stA).mpr hA)
      rcases rB with e | n2 <;> dsimp only at h <;>
        rw [Prod.mk.injEq] at h <;> obtain ⟨h1, _⟩ := h <;> subst h1
      · exact hB
      · simpa [DedupInv, bumpFeeds] using hB
    · rw [if_neg hretry, Prod.mk.injEq] at h
      obtain ⟨h1, _⟩ := h
      subst h1
      simpa [DedupInv, bumpFeeds] using hA

/-- Counter facts for a `process_feed` call that completes normally. -/
theorem process_feed_ok_facts (fu : String) (ftr : Option String)
    (cs : List EntryCase) (quota : Nat) (minWC : Int) (st st1 : RunState)
    (n : Nat) (h : process_feed fu ftr cs quota minWC st = (st1, .ok n)) :
    st1.summary.feeds_processed = st.summary.feeds_processed + 1 ∧
    st.summary.articles_posted ≤ st1.summary.articles_posted ∧
    st1.summary.articles_posted ≤ st.summary.articles_posted + n := by
  unfold process_feed at h
  rcases hp1 : passStrict fu (deriveFeedTitle ftr) minWC quota cs 0 st with ⟨stA, rA⟩
  rw [hp1] at h
  have hA := passStrict_inv fu (deriveFeedTitle ftr) minWC quota cs 0 st stA rA hp1
  rcases rA with e | n1
  · simp at h
  · dsimp only at h
    have hA1 := hA.2.2.1 n1 rfl
    by_cases hretry : n1 < quota ∧ minWC ≠ -1
    · rw [if_pos hretry] at h
      rcases hp2 : passRelaxed fu (deriveFeedTitle ftr) quota cs n1 (logRetry fu stA)
        with ⟨stB, rB⟩
      rw [hp2] at h
      have hB := passRelaxed_inv fu (deriveFeedTitle ftr) quota cs n1 (logRetry fu stA)
        stB rB hp2
      rcases rB with e | n2
      · simp at h
      · dsimp only at h
        rw [Prod.mk.injEq] at h
        obtain ⟨h1, h2⟩ := h
        injection h2 with h2
        subst h1; subst h2
        have hB1 := hB.2.2.1 n2 rfl
        have hfeedsA := hA.1
        have hfeedsB := hB.1
        have hpostA := hA.2.1
        have hpostB := hB.2.1
        refine ⟨?_, ?_, ?_⟩ <;>
          simp only [bumpFeeds, logRetry] at * <;> omega
    · rw [if_neg hretry, Prod.mk.injEq] at h
      obtain ⟨h1, h2⟩ := h
      injection h2 with h2
      subst h1; subst h2
      have hfeedsA := hA.1
      have hpostA := hA.2.1
      refine ⟨?_, ?_, ?_⟩ <;>
        simp only [bumpFeeds] at * <;> omega

/-! ## Claim C1 — dedup behaviour within one run -/

/-- C1 (counterexample): the claim says every occurrence of a duplicate
identifier after the first increments `duplicates_skipped` exactly once
in both passes.  Feed `[c1e1, c1e2]` has two entries with the same
identifier; with quota 2 the short first entry is skipped unmarked, the
second is posted, and the relaxed retry pass then re-encounters both —
two duplicate occurrences — yet skips them silently
(src/rss_to_blogger.py:303-306), leaving `duplicates_skipped = 0`. -/
theorem C1_counterexample :
    identOf c1e1.entry = identOf c1e2.entry ∧
    (process_feed "http://feed" (some "My Feed") [c1e1, c1e2] 2 15 {}).2
      = Except.ok 1 ∧
    (process_feed "http://feed" (some "My Feed") [c1e1, c1e2] 2 15 {}).1.rewriteCalls
      = [("A", "http://u")] ∧
    (process_feed "http://feed" (some "My Feed") [c1e1, c1e2] 2 15
        {}).1.summary.duplicates_skipped = 0 := by
  refine ⟨rfl, rfl, rfl, rfl⟩

/-- C1 (amended): within one run, for every pair of entries with
identical (title, source URL), at most one is ever sent to the rewrite
service and published (the trace of rewrite invocations has no
duplicate identifier); in the strict pass, every occurrence whose
identifier is already in the duplicate tracker increments
`duplicates_skipped` exactly once and writes one skip-log line; in the
relaxed retry pass, duplicate occurrences are skipped silently and
`duplicates_skipped` is never incremented. -/
theorem C1_dedup_amended (fu : String) (ftr : Option String)
    (cs : List EntryCase) (quota : Nat) (minWC : Int) (st st1 : RunState)
    (r : Except PyErr Nat) (h0 : st.rewriteCalls = [])
    (h : process_feed fu ftr cs quota minWC st = (st1, r)) :
    st1.rewriteCalls.Nodup ∧
    (∀ (ft2 : String) (minWC2 : Int) (ec : EntryCase) (stx : RunState)
        (content : String),
      entryContent ec.entry = .ok content →
      identOf ec.entry ∈ stx.processed →
      processEntryStrict fu ft2 minWC2 ec stx
        = (dupSkipStrict fu (identOf ec.entry).1 stx, .ok 0)) ∧
    (∀ (ft2 : String) (q2 n0 : Nat) (cs2 : List EntryCase)
        (stx st2 : RunState) (r2 : Except PyErr Nat),
      passRelaxed fu ft2 q2 cs2 n0 stx = (st2, r2) →
      st2.summary.duplicates_skipped = stx.summary.duplicates_skipped) := by
  refine ⟨?_, ?_, ?_⟩
  · have hinv : DedupInv st := by
      constructor <;> simp [h0]
    exact (process_feed_inv fu ftr cs quota minWC st st1 r h hinv).1
  · intro ft2 minWC2 ec stx content hc hdup
    exact ((processEntryStrict_cases fu ft2 minWC2 ec stx).2 content hc).1 hdup
  · intro ft2 q2 n0 cs2 stx st2 r2 h2
    exact (passRelaxed_inv fu ft2 q2 cs2 n0 stx st2 r2 h2).2.2.2.1

/-- C1 (witness): on the concrete duplicate-carrying run, the amended
theorem yields that the trace of rewrite invocations has no duplicate. -/
theorem C1_witness :
    (process_feed "http://feed" (some "My Feed") [c1e1, c1e2] 2 15
      {}).1.rewriteCalls.Nodup :=
  (C1_dedup_amended "http://feed" (some "My Feed") [c1e1, c1e2] 2 15 {}
    (process_feed "http://feed" (some "My Feed") [c1e1, c1e2] 2 15 {}).1
    (process_feed "http://feed" (some "My Feed") [c1e1, c1e2] 2 15 {}).2
    rfl rfl).1

/-! ## Claim C2 — completion counters and return value -/

/-- C2 (counterexample): the claim says `process_feed` returns the
count of articles *actually posted*.  On a feed with one long entry
whose rewrite succeeds but whose publish submission fails, the worker's
`articles_processed` is incremented anyway
(src/rss_to_blogger.py:283-285: the return value of
`post_to_blogger_draft` is ignored), so the call returns 1 while
`articles_posted` stays 0. -/
theorem C2_counterexample :
    (process_feed "http://feed2" (some "F") [c2e] 1 15 {}).2 = Except.ok 1 ∧
    (process_feed "http://feed2" (some "F") [c2e] 1 15
      {}).1.summary.articles_posted = 0 := by
  exact ⟨rfl, rfl⟩

/-- C2 (amended): on normal completion `process_feed` increments
`feeds_processed` by exactly one and returns the count of articles
whose rewrite succeeded — for each of which a publish was attempted —
which bounds (but can exceed) the number actually posted;
`articles_posted` is incremented only inside the Publisher on
submission success, so an article whose rewrite succeeded but whose
publish failed contributes to the return value but not to
`articles_posted`. -/
theorem C2_completion_amended (fu : String) (ftr : Option String)
    (cs : List EntryCase) (quota : Nat) (minWC : Int) (st st1 : RunState)
    (n : Nat) (h : process_feed fu ftr cs quota minWC st = (st1, .ok n)) :
    st1.summary.feeds_processed = st.summary.feeds_processed + 1 ∧
    st1.summary.articles_posted ≤ st.summary.articles_posted + n ∧
    (∀ (ft2 : String) (minWC2 : Int) (ec : EntryCase) (stx : RunState)
        (content r0 : String),
      entryContent ec.entry = .ok content →
      identOf ec.entry ∉ stx.processed →
      ¬ (wordCount (clean_text content) : Int) < minWC2 →
      ec.rewriteResp = some r0 →
      ec.publishOk = false →
      processEntryStrict fu ft2 minWC2 ec stx
          = ((coreProcess fu ft2 ec stx).1, .ok 1) ∧
      (coreProcess fu ft2 ec stx).1.summary.articles_posted
          = stx.summary.articles_posted) ∧
    (∀ (data : Option ArticleData) (ft2 : String) (img : Option String)
        (src : String) (sm : Summary),
      (post_to_blogger_draft data ft2 img src false sm).summary.articles_posted
        = sm.articles_posted) := by
  refine ⟨(process_feed_ok_facts fu ftr cs quota minWC st st1 n h).1,
    (process_feed_ok_facts fu ftr cs quota minWC st st1 n h).2.2, ?_, ?_⟩
  · intro ft2 minWC2 ec stx content r0 hc hdup hwc hresp hpub
    have hf := coreProcess_facts fu ft2 ec stx
    have hk := hf.2.2.2.2.2.2.2.2.2.1 r0 hresp
    constructor
    · rw [(((processEntryStrict_cases fu ft2 minWC2 ec stx).2 content hc).2 hdup).2 hwc, hk]
    · exact hf.2.2.2.2.2.2.2.2.2.2 hpub
  · intro data ft2 img src sm
    exact (post_summary_facts data ft2 img src false sm).2.2.2.2.2 rfl

/-- C2 (witness): on the concrete rewrite-ok/publish-fail run, the
amended theorem gives `feeds_processed = 1` and bounds the posted count
by the returned 1. -/
theorem C2_witness :
    (process_feed "http://feed2" (some "F") [c2e] 1 15
      {}).1.summary.feeds_processed = 1 ∧
    (process_feed "http://feed2" (some "F") [c2e] 1 15
      {}).1.summary.articles_posted ≤ 1 :=
  ⟨(C2_completion_amended "http://feed2" (some "F") [c2e] 1 15 {}
      (process_feed "http://feed2" (some "F") [c2e] 1 15 {}).1 1 rfl).1,
   (C2_completion_amended "http://feed2" (some "F") [c2e] 1 15 {}
      (process_feed "http://feed2" (some "F") [c2e] 1 15 {}).1 1 rfl).2.1⟩

/-! ## Claim C6 — word-count gate and relaxed retry -/

/-- C6: an entry below the minimum word count in the strict pass is
skipped with its exact word count logged under reason "Below word
count" and `articles_skipped_short` incremented, and is *not* marked in
the duplicate tracker; the relaxed-pass iteration performs no
word-count check at all (it proceeds straight to processing); and
whenever the strict pass ends below quota with the minimum word count
not already −1, `process_feed` runs the relaxed pass over the entries
from the start — so a short-skipped entry becomes eligible there. -/
theorem C6_short_skip_relaxed_retry :
    (∀ (fu ft : String) (minWC : Int) (ec : EntryCase) (st : RunState)
        (content : String),
      entryContent ec.entry = .ok content →
      identOf ec.entry ∉ st.processed →
      (wordCount (clean_text content) : Int) < minWC →
      processEntryStrict fu ft minWC ec st
        = (shortSkip fu (identOf ec.entry).1 (wordCount (clean_text content)) st,
            .ok 0)) ∧
    (∀ (fu ft : String) (ec : EntryCase) (st : RunState) (content : String),
      entryContent ec.entry = .ok content →
      identOf ec.entry ∉ st.processed →
      processEntryRelaxed fu ft ec st
        = ((coreProcess fu ft ec st).1, .ok (coreProcess fu ft ec st).2)) ∧
    (∀ (fu : String) (ftr : Option String) (cs : List EntryCase)
        (quota : Nat) (minWC : Int) (st0 stA : RunState) (n1 : Nat),
      passStrict fu (deriveFeedTitle ftr) minWC quota cs 0 st0 = (stA, .ok n1) →
      n1 < quota → minWC ≠ -1 →
      process_feed fu ftr cs quota minWC st0
        = (match passRelaxed fu (deriveFeedTitle ftr) quota cs n1
              (logRetry fu stA) with
           | (st3, .error e) => (st3, .error e)
           | (st3, .ok n2) => (bumpFeeds st3, .ok n2))) := by
  refine ⟨?_, ?_, ?_⟩
  · intro fu ft minWC ec st content hc hdup hwc
    exact (((processEntryStrict_cases fu ft minWC ec st).2 content hc).2 hdup).1 hwc
  · intro fu ft ec st content hc hdup
    exact ((processEntryRelaxed_cases fu ft ec st).2 content hc).2 hdup
  · intro fu ftr cs quota minWC st0 stA n1 hpass hq hm
    unfold process_feed
    rw [hpass]
    dsimp only
    rw [if_pos ⟨hq, hm⟩]

/-- C6 (witness): the short entry `c1e1` (2 words < 15) is skipped with
word count 2 logged and the tracker untouched, and the relaxed
iteration on the same entry proceeds to processing. -/
theorem C6_witness :
    processEntryStrict "http://feed" "My_Feed" 15 c1e1 {}
      = (shortSkip "http://feed" "A" 2 {}, .ok 0) ∧
    processEntryRelaxed "http://feed" "My_Feed" c1e1 {}
      = ((coreProcess "http://feed" "My_Feed" c1e1 {}).1,
          .ok (coreProcess "http://feed" "My_Feed" c1e1 {}).2) := by
  constructor
  · exact C6_short_skip_relaxed_retry.1 "http://feed" "My_Feed" 15 c1e1 {}
      "tiny story" rfl (by decide) (by decide)
  · exact C6_short_skip_relaxed_retry.2.1 "http://feed" "My_Feed" c1e1 {}
      "tiny story" rfl (by decide)

/-! ## Claim C9 — failure absorption and the summary artifact -/

/-- C9 (counterexample): the claim says every per-article failure is
absorbed locally and appears in counters and logs.  An entry whose
`content` key holds an empty list makes content extraction raise
`IndexError` (src/rss_to_blogger.py:254), and `process_feed` has no
`try` around its loop: the worker aborts, the following good entry is
never processed, nothing is counted or logged, and `feeds_processed` is
not incremented — yet `executor.map` swallows the exception and the
summary artifact is still written. -/
theorem C9_counterexample :
    process_feed "http://feed9" (some "F") [c9bad, c9good] 4 15 {}
      = (({} : RunState), Except.error PyErr.indexError) ∧
    mainRun [⟨"http://feed9", some "F", [c9bad, c9good]⟩] {}
      = ⟨({} : RunState), true⟩ := by
  exact ⟨rfl, rfl⟩

/-- C9 (amended): the run always ends with the summary artifact written
(worker exceptions are captured in their futures and never re-raised
into the driver), and the two guarded per-article failures are absorbed
locally: a rewrite-service failure drops the article with no statistic
change and the worker continues (`.ok 0`), and a publish failure leaves
`articles_posted` unchanged while the worker continues (`.ok 1`);
however, an exception outside those guarded calls (such as the empty
content list of the counterexample) escapes the worker, silently
cancels the rest of that feed and is reflected in no counter or log. -/
theorem C9_absorption_amended :
    (∀ (jobs : List FeedJob) (st0 : RunState),
      (mainRun jobs st0).summaryWritten = true) ∧
    (∀ (fu ft : String) (minWC : Int) (ec : EntryCase) (st : RunState)
        (content : String),
      entryContent ec.entry = .ok content →
      identOf ec.entry ∉ st.processed →
      ¬ (wordCount (clean_text content) : Int) < minWC →
      ec.rewriteResp = none →
      processEntryStrict fu ft minWC ec st = ((coreProcess fu ft ec st).1, .ok 0) ∧
      (coreProcess fu ft ec st).1.summary = st.summary) ∧
    (∀ (fu ft : String) (minWC : Int) (ec : EntryCase) (st : RunState)
        (content r0 : String),
      entryContent ec.entry = .ok content →
      identOf ec.entry ∉ st.processed →
      ¬ (wordCount (clean_text content) : Int) < minWC →
      ec.rewriteResp = some r0 →
      ec.publishOk = false →
      processEntryStrict fu ft minWC ec st = ((coreProcess fu ft ec st).1, .ok 1) ∧
      (coreProcess fu ft ec st).1.summary.articles_posted
        = st.summary.articles_posted) := by
  refine ⟨fun jobs st0 => rfl, ?_, ?_⟩
  · intro fu ft minWC ec st content hc hdup hwc hresp
    have hf := coreProcess_facts fu ft ec st
    have hk := hf.2.2.2.2.2.2.2.2.1 hresp
    constructor
    · rw [(((processEntryStrict_cases fu ft minWC ec st).2 content hc).2 hdup).2 hwc, hk.1]
    · exact hk.2
  · intro fu ft minWC ec st content r0 hc hdup hwc hresp hpub
    have hf := coreProcess_facts fu ft ec st
    have hk := hf.2.2.2.2.2.2.2.2.2.1 r0 hresp
    constructor
    · rw [(((processEntryStrict_cases fu ft minWC ec st).2 content hc).2 hdup).2 hwc, hk]
    · exact hf.2.2.2.2.2.2.2.2.2.2 hpub

/-- C9 (witness): a concrete rewrite-service failure is absorbed — the
worker continues with `.ok 0` and the counters untouched — and the
driver still reports the summary as written. -/
theorem C9_witness :
    processEntryStrict "http://feed9" "F" 15 c9soft {}
      = ((coreProcess "http://feed9" "F" c9soft {}).1, .ok 0) ∧
    (coreProcess "http://feed9" "F" c9soft {}).1.summary = ({} : RunState).summary ∧
    (mainRun [] {}).summaryWritten = true := by
  have h := C9_absorption_amended.2.1 "http://feed9" "F" 15 c9soft {}
    longContent rfl (by decide) (by decide) rfl
  exact ⟨h.1, h.2, C9_absorption_amended.1 [] {}⟩

/-! ## Claim C8 — normalizer idempotence -/

theorem squashWs_cons_ws_true (d : Char) (cs : List Char) (hd : isWs d = true) :
    squashWs true (d :: cs) = squashWs true cs := by
  simp [squashWs, hd]

theorem squashWs_cons_ws_false (d : Char) (cs : List Char) (hd : isWs d = true) :
    squashWs false (d :: cs) = ' ' :: squashWs true cs := by
  simp [squashWs, hd]

theorem squashWs_cons_nws (b : Bool) (d : Char) (cs : List Char)
    (hd : isWs d = false) :
    squashWs b (d :: cs) = d :: squashWs false cs := by
  simp [squashWs, hd]

theorem dropWs_cons_ws (d : Char) (cs : List Char) (hd : isWs d = true) :
    dropWs (d :: cs) = dropWs cs := by
  simp [dropWs, hd]

theorem dropWs_cons_nws (d : Char) (cs : List Char) (hd : isWs d = false) :
    dropWs (d :: cs) = d :: cs := by
  simp [dropWs, hd]

theorem squashWs_mem (c : Char) : ∀ (l : List Char) (b : Bool),
    c ∈ squashWs b l → c = ' ' ∨ c ∈ l := by
  intro l
  induction l with
  | nil => intro b h; simp [squashWs] at h
  | cons d cs ih =>
    intro b h
    cases hd : isWs d with
    | true =>
      cases b with
      | false =>
        rw [squashWs_cons_ws_false d cs hd] at h
        rcases List.mem_cons.mp h with h | h
        · exact Or.inl h
        · rcases ih true h with h2 | h2
          · exact Or.inl h2
          · exact Or.inr (List.mem_cons_of_mem d h2)
      | true =>
        rw [squashWs_cons_ws_true d cs hd] at h
        rcases ih true h with h2 | h2
        · exact Or.inl h2
        · exact Or.inr (List.mem_cons_of_mem d h2)
    | false =>
      rw [squashWs_cons_nws b d cs hd] at h
      rcases List.mem_cons.mp h with h | h
      · exact Or.inr (by simp [h])
      · rcases ih false h with h2 | h2
        · exact Or.inl h2
        · exact Or.inr (List.mem_cons_of_mem d h2)

theorem squashWs_allSpace (c : Char) : ∀ (l : List Char) (b : Bool),
    c ∈ squashWs b l → isWs c = true → c = ' ' := by
  intro l
  induction l with
  | nil => intro b h; simp [squashWs] at h
  | cons d cs ih =>
    intro b h hw
    cases hd : isWs d with
    | true =>
      cases b with
      | false =>
        rw [squashWs_cons_ws_false d cs hd] at h
        rcases List.mem_cons.mp h with h | h
        · exact h
        · exact ih true h hw
      | true =>
        rw [squashWs_cons_ws_true d cs hd] at h
        exact ih true h hw
    | false =>
      rw [squashWs_cons_nws b d cs hd] at h
      rcases List.mem_cons.mp h with h | h
      · subst h; rw [hw] at hd; exact absurd hd (by simp)
      · exact ih false h hw

theorem squashWs_head_true (c : Char) : ∀ (l : List Char),
    (squashWs true l).head? = some c → isWs c = false := by
  intro l
  induction l with
  | nil => intro h; simp [squashWs] at h
  | cons d cs ih =>
    intro h
    cases hd : isWs d with
    | true =>
      rw [squashWs_cons_ws_true d cs hd] at h
      exact ih h
    | false =>
      rw [squashWs_cons_nws true d cs hd, List.head?_cons] at h
      injection h with h
      subst h
      exact hd

theorem squashWs_chain : ∀ (l : List Char) (b : Bool),
    List.Chain' wsR (squashWs b l) := by
  intro l
  induction l with
  | nil => intro b; simp [squashWs]
  | cons d cs ih =>
    intro b
    cases hd : isWs d with
    | true =>
      cases b with
      | false =>
        rw [squashWs_cons_ws_false d cs hd, List.chain'_cons']
        refine ⟨?_, ih true⟩
        intro y hy hcontra
        have hny := squashWs_head_true y cs (Option.mem_def.mp hy)
        rw [hny] at hcontra
        exact Bool.false_ne_true hcontra.2
      | true =>
        rw [squashWs_cons_ws_true d cs hd]
        exact ih true
    | false =>
      rw [squashWs_cons_nws b d cs hd, List.chain'_cons']
      refine ⟨?_, ih false⟩
      intro y hy hcontra
      rw [hd] at hcontra
      exact Bool.false_ne_true hcontra.1

theorem squashWs_fix : ∀ (l : List Char) (b : Bool),
    (∀ c ∈ l, isWs c = true → c = ' ') →
    List.Chain' wsR l →
    (b = true → ∀ c, l.head? = some c → isWs c = false) →
    squashWs b l = l := by
  intro l
  induction l with
  | nil => intro b _ _ _; simp [squashWs]
  | cons d cs ih =>
    intro b hall hchain hhead
    rw [List.chain'_cons'] at hchain
    cases hd : isWs d with
    | true =>
      have hb : b = false := by
        cases b with
        | false => rfl
        | true =>
          have h2 := hhead rfl d rfl
          rw [hd] at h2
          exact absurd h2 (by simp)
      subst hb
      rw [squashWs_cons_ws_false d cs hd]
      have hd1 : d = ' ' := hall d (by simp) hd
      rw [hd1]
      congr 1
      refine ih true (fun c hc hw => hall c (by simp [hc]) hw) hchain.2 ?_
      intro _ c hc
      have hr := hchain.1 c (Option.mem_def.mpr hc)
      by_contra hnw
      simp only [Bool.not_eq_false] at hnw
      exact hr ⟨hd, hnw⟩
    | false =>
      rw [squashWs_cons_nws b d cs hd]
      congr 1
      refine ih false (fun c hc hw => hall c (by simp [hc]) hw) hchain.2 ?_
      intro habs
      exact absurd habs (by simp)

theorem dropWs_head (c : Char) : ∀ (l : List Char),
    (dropWs l).head? = some c → isWs c = false := by
  intro l
  induction l with
  | nil => intro h; simp [dropWs] at h
  | cons d cs ih =>
    intro h
    cases hd : isWs d with
    | true =>
      rw [dropWs_cons_ws d cs hd] at h
      exact ih h
    | false =>
      rw [dropWs_cons_nws d cs hd, List.head?_cons] at h
      injection h with h
      subst h
      exact hd

theorem dropWs_fix (l : List Char)
    (h : ∀ c, l.head? = some c → isWs c = false) : dropWs l = l := by
  cases l with
  | nil => rfl
  | cons d cs => exact dropWs_cons_nws d cs (h d rfl)

theorem dropWs_idem (l : List Char) : dropWs (dropWs l) = dropWs l :=
  dropWs_fix (dropWs l) fun c hc => dropWs_head c l hc

theorem dropWs_mem (c : Char) : ∀ (l : List Char), c ∈ dropWs l → c ∈ l := by
  intro l
  induction l with
  | nil => intro h; simp [dropWs] at h
  | cons d cs ih =>
    intro h
    cases hd : isWs d with
    | true =>
      rw [dropWs_cons_ws d cs hd] at h
      exact List.mem_cons_of_mem d (ih h)
    | false =>
      rwa [dropWs_cons_nws d cs hd] at h

theorem dropWs_chain : ∀ (l : List Char),
    List.Chain' wsR l → List.Chain' wsR (dropWs l) := by
  intro l
  induction l with
  | nil => intro h; simp [dropWs]
  | cons d cs ih =>
    intro h
    rw [List.chain'_cons'] at h
    cases hd : isWs d with
    | true =>
      rw [dropWs_cons_ws d cs hd]
      exact ih h.2
    | false =>
      rw [dropWs_cons_nws d cs hd, List.chain'_cons']
      exact h

theorem dropWs_decomp (l : List Char) : ∃ w, l = w ++ dropWs l := by
  induction l with
  | nil => exact ⟨[], rfl⟩
  | cons d cs ih =>
    cases hd : isWs d with
    | true =>
      obtain ⟨w, hw⟩ := ih
      refine ⟨d :: w, ?_⟩
      rw [dropWs_cons_ws d cs hd, List.cons_append, ← hw]
    | false =>
      refine ⟨[], ?_⟩
      rw [dropWs_cons_nws d cs hd]
      rfl

theorem chain_wsR_reverse (l : List Char) (h : List.Chain' wsR l) :
    List.Chain' wsR l.reverse := by
  rw [List.chain'_reverse]
  exact List.Chain'.imp (fun a b hab hc => hab ⟨hc.2, hc.1⟩) h

theorem collapseWs_mem (l : List Char) (c : Char) (h : c ∈ collapseWs l) :
    c = ' ' ∨ c ∈ l := by
  have h1 : c ∈ dropWs (dropWs (squashWs false l)).reverse := by
    simpa [collapseWs, stripEnds] using h
  have h2 := dropWs_mem c _ h1
  rw [List.mem_reverse] at h2
  exact squashWs_mem c l false (dropWs_mem c _ h2)

/-- The whitespace-collapse-and-strip of `clean_text` is idempotent. -/
theorem collapseWs_idem (l : List Char) :
    collapseWs (collapseWs l) = collapseWs l := by
  have hall : ∀ c ∈ collapseWs l, isWs c = true → c = ' ' := by
    intro c hc hw
    have h1 : c ∈ dropWs (dropWs (squashWs false l)).reverse := by
      simpa [collapseWs, stripEnds] using hc
    have h2 := dropWs_mem c _ h1
    rw [List.mem_reverse] at h2
    exact squashWs_allSpace c l false (dropWs_mem c _ h2) hw
  have hchain : List.Chain' wsR (collapseWs l) := by
    have h1 : List.Chain' wsR (dropWs (squashWs false l)) :=
      dropWs_chain _ (squashWs_chain l false)
    have h2 := chain_wsR_reverse _ h1
    have h3 := dropWs_chain _ h2
    have h4 := chain_wsR_reverse _ h3
    simpa [collapseWs, stripEnds] using h4
  have hsquash : squashWs false (collapseWs l) = collapseWs l :=
    squashWs_fix (collapseWs l) false hall hchain (by simp)
  have hrev : (collapseWs l).reverse = dropWs (dropWs (squashWs false l)).reverse := by
    simp [collapseWs, stripEnds]
  have hdrop2 : dropWs (collapseWs l).reverse = (collapseWs l).reverse := by
    rw [hrev]
    exact dropWs_idem _
  have hdrop1 : dropWs (collapseWs l) = collapseWs l := by
    obtain ⟨w, hw⟩ := dropWs_decomp (dropWs (squashWs false l)).reverse
    have hqout : dropWs (squashWs false l) = collapseWs l ++ w.reverse := by
      have h5 := congrArg List.reverse hw
      rw [List.reverse_reverse, List.reverse_append] at h5
      rw [h5]
      rfl
    refine dropWs_fix _ ?_
    intro c hc
    refine dropWs_head c (squashWs false l) ?_
    rw [hqout]
    rcases hceq : collapseWs l with _ | ⟨d, t⟩
    · rw [hceq] at hc
      simp at hc
    · rw [hceq] at hc
      rw [List.head?_cons] at hc
      injection hc with hc
      subst hc
      rfl
  calc collapseWs (collapseWs l)
      = stripEnds (squashWs false (collapseWs l)) := rfl
    _ = stripEnds (collapseWs l) := by rw [hsquash]
    _ = (dropWs (dropWs (collapseWs l)).reverse).reverse := rfl
    _ = (dropWs (collapseWs l).reverse).reverse := by rw [hdrop1]
    _ = ((collapseWs l).reverse).reverse := by rw [hdrop2]
    _ = collapseWs l := List.reverse_reverse _

theorem stripTagsGo_cons_nlt (c : Char) (cs : List Char) (hc : c ≠ '<') :
    stripTagsGo false (c :: cs) = c :: stripTagsGo false cs := by
  simp [stripTagsGo, hc]

theorem stripTags_id : ∀ (l : List Char), (∀ c ∈ l, c ≠ '<') → stripTags l = l := by
  intro l
  unfold stripTags
  induction l with
  | nil => intro _; rfl
  | cons c cs ih =>
    intro h
    rw [stripTagsGo_cons_nlt c cs (h c (by simp))]
    rw [ih fun d hd => h d (by simp [hd])]

theorem unescapeEnt_id : ∀ (l : List Char), (∀ c ∈ l, c ≠ '&') →
    unescapeEnt l = l := by
  intro l
  induction l with
  | nil => intro _; rfl
  | cons c cs ih =>
    intro h
    have hc : c ≠ '&' := h c (by simp)
    have ih2 := ih fun d hd => h d (by simp [hd])
    rw [unescapeEnt.eq_def]
    split <;> simp_all

/-- C8 (counterexample): the claim says already-normalized text is a
fixed point of `clean_text`.  `clean_text "&amp;amp;" = "&amp;"` (one
level of entity decoding), and re-applying the normalizer to that
output decodes it further to `"&"`, so the output is not a fixed
point. -/
theorem C8_counterexample :
    clean_text (clean_text "&amp;amp;") ≠ clean_text "&amp;amp;" := by
  decide

/-- C8 (amended): the normalizer is idempotent on inputs free of markup
and character-entity references: for every string with no `<` and no
`&`, the normalizer reduces to whitespace collapse-and-strip, which is
a genuine fixed point under re-application.  In general an output that
still contains an entity reference (possible when the input was
multiply-encoded) is decoded one level further by a second application,
so normalized text is not a fixed point of `clean_text`. -/
theorem C8_normalizer_idempotent_amended (s : String)
    (hlt : ∀ c ∈ s.data, c ≠ '<') (hamp : ∀ c ∈ s.data, c ≠ '&') :
    clean_text (clean_text s) = clean_text s := by
  have h1 : stripTags s.data = s.data := stripTags_id s.data hlt
  have hclean : clean_text s = ⟨collapseWs s.data⟩ := by
    unfold clean_text
    rw [h1, unescapeEnt_id s.data hamp]
  have hmem : ∀ c ∈ collapseWs s.data, c ≠ '<' ∧ c ≠ '&' := by
    intro c hc
    rcases collapseWs_mem s.data c hc with h | h
    · subst h
      exact ⟨by decide, by decide⟩
    · exact ⟨hlt c h, hamp c h⟩
  rw [hclean]
  have h3 : clean_text ⟨collapseWs s.data⟩ = ⟨collapseWs (collapseWs s.data)⟩ := by
    unfold clean_text
    rw [show (String.mk (collapseWs s.data)).data = collapseWs s.data from rfl]
    rw [stripTags_id _ fun c hc => (hmem c hc).1]
    rw [unescapeEnt_id _ fun c hc => (hmem c hc).2]
  rw [h3, collapseWs_idem]

/-- C8 (witness): the amended idempotence at a concrete entity-free,
markup-free input. -/
theorem C8_witness :
    clean_text (clean_text "hello   world  again") = clean_text "hello   world  again" :=
  C8_normalizer_idempotent_amended "hello   world  again" (by decide) (by decide)


/-! ## Claim C3 — duplicate check-and-insert is not atomic -/

/-- C3: the claim states that the membership test and the insertion for
an Article Identifier execute as one atomic (linearizable)
check-and-insert, so that of two workers racing on the same identifier
at most one observes "newly added".  The code takes the lock separately
for the test (src/rss_to_blogger.py:260-265) and for the insertion
(src/rss_to_blogger.py:278-279), with unlocked work in between.  This
theorem evaluates the two-critical-section protocol at the failing
input: both workers race on the identifier `("T", "http://u")` under
the schedule check-A, check-B, insert-A, insert-B, and both observe the
identifier as newly added — both then rewrite and publish it. -/
theorem C3_race_both_observe_newly_added :
    (runRace ("T", "http://u") ("T", "http://u") [true, false, true, false] []).a.sawAbsent
        = some true ∧
    (runRace ("T", "http://u") ("T", "http://u") [true, false, true, false] []).b.sawAbsent
        = some true ∧
    (runRace ("T", "http://u") ("T", "http://u") [true, false, true, false] []).a.pc = 2 ∧
    (runRace ("T", "http://u") ("T", "http://u") [true, false, true, false] []).b.pc = 2 := by
  decide

/-! ## Claim C7 — image extraction -/

/-- C7 (counterexample): the claim says the Image Extractor returns the
first URL whose *path* ends in a raster-image extension.  For a URL
whose path ends in `.jpg` but which carries a query string, the code's
check `url.lower().endswith((".jpg", ...))` examines the whole URL
(src/rss_to_blogger.py:141), so `extract_image` returns `None` even
though the path qualifies. -/
theorem C7_counterexample :
    specPathIsImage "http://ex.com/pic.jpg?width=100" = true ∧
    extract_image c7Entry = none := by
  decide

/-- C7 (amended): the Image Extractor scans `media_content`,
`media_thumbnail`, `enclosure` in that fixed order, considering from
each present non-empty field only its first element's URL, and returns
the first such candidate that is non-empty and whose *entire text*,
lowercased, ends in `.jpg`, `.jpeg`, `.png` or `.gif` (query strings
are not stripped); it returns `none` when no candidate qualifies. -/
theorem C7_extract_image_first_qualifying (e : Entry) :
    extract_image e = (imageCandidates e).find? isImageUrl ∧
    (∀ u, extract_image e = some u →
      isImageUrl u = true ∧ u ∈ imageCandidates e) ∧
    (extract_image e = none → ∀ u ∈ imageCandidates e, isImageUrl u = false) := by
  have hchar : extract_image e = (imageCandidates e).find? isImageUrl := by
    unfold extract_image imageCandidates
    rcases hmc : fieldFirstUrl e.media_content with _ | u <;>
      rcases hmt : fieldFirstUrl e.media_thumbnail with _ | v <;>
        rcases hen : fieldFirstUrl e.enclosure with _ | w <;>
          simp [List.find?] <;> split <;> simp_all [List.find?] <;>
            (try (split <;> simp_all [List.find?])) <;>
              (try (split <;> simp_all [List.find?]))
  refine ⟨hchar, ?_, ?_⟩
  · intro u hu
    rw [hchar] at hu
    exact ⟨List.find?_some hu, List.mem_of_find?_eq_some hu⟩
  · intro hn u hu
    rw [hchar, List.find?_eq_none] at hn
    simpa using hn u hu

/-- C7 (witness): on a concrete entry whose first media-content URL is
not an image but whose thumbnail URL is, the characterisation yields the
thumbnail URL. -/
theorem C7_witness :
    extract_image { media_content := some [⟨some "http://ex.com/page.html"⟩],
                    media_thumbnail := some [⟨some "http://ex.com/t.PNG"⟩] }
      = some "http://ex.com/t.PNG" := by
  have h := C7_extract_image_first_qualifying
    { media_content := some [⟨some "http://ex.com/page.html"⟩],
      media_thumbnail := some [⟨some "http://ex.com/t.PNG"⟩] }
  rw [h.1]
  decide

/-! ## Claim C5 — Publisher validation -/

/-- C5: for every input payload whose title or content field is missing
or empty, the Publisher returns `None` with the external service never
contacted and the counters untouched; and a submission is sent only
when both fields are present and non-empty
(src/rss_to_blogger.py:196-216). -/
theorem C5_publisher_validation (data : Option ArticleData) (ft : String)
    (img : Option String) (src : String) (ok : Bool) (sm : Summary) :
    (data = none → post_to_blogger_draft data ft img src ok sm = ⟨none, none, sm⟩) ∧
    (∀ a, data = some a →
      (a.title = none ∨ a.title = some "" ∨ a.content = none ∨ a.content = some "") →
      post_to_blogger_draft data ft img src ok sm = ⟨none, none, sm⟩) ∧
    ((post_to_blogger_draft data ft img src ok sm).submitted ≠ none →
      ∃ a t c, data = some a ∧ a.title = some t ∧ t ≠ "" ∧
        a.content = some c ∧ c ≠ "") := by
  refine ⟨?_, ?_, ?_⟩
  · intro h; subst h; rfl
  · rintro a rfl h
    rcases h with h | h | h | h <;>
      simp [post_to_blogger_draft, h] <;>
        rcases a.title with _ | t <;> simp_all
  · intro hsub
    rcases data with _ | a
    · simp [post_to_blogger_draft] at hsub
    · rcases ht : a.title with _ | t
      · simp [post_to_blogger_draft, ht] at hsub
      · rcases hc : a.content with _ | c
        · by_cases h0 : t = "" <;> simp [post_to_blogger_draft, ht, hc, h0] at hsub
        · by_cases h0 : t = ""
          · simp [post_to_blogger_draft, ht, h0] at hsub
          · by_cases h1 : c = ""
            · simp [post_to_blogger_draft, ht, hc, h0, h1] at hsub
            · exact ⟨a, t, c, rfl, ht, h0, hc, h1⟩

/-- C5 (witness): a payload with a title but no content field is
rejected without contact and without touching the counters. -/
theorem C5_witness :
    post_to_blogger_draft (some { title := some "T" }) "Feed" none "src" true {}
      = ⟨none, none, {}⟩ :=
  (C5_publisher_validation (some { title := some "T" }) "Feed" none "src" true {}).2.1
    { title := some "T" } rfl (Or.inr (Or.inr (Or.inl rfl)))

/-! ## Claim C10 — images_included counted before submission -/

/-- C10: when a valid payload comes with a non-empty image URL,
`images_included` is incremented before the submission is attempted
(src/rss_to_blogger.py:209-212), hence also when the submission then
fails, in which case `articles_posted` is untouched and the call
returns `None` (src/rss_to_blogger.py:236-240). -/
theorem C10_images_counted_before_submission (a : ArticleData)
    (ft src u : String) (sm : Summary) (t c kw : String)
    (ht : a.title = some t) (ht0 : t ≠ "") (hc : a.content = some c)
    (hc0 : c ≠ "") (hk : a.keywords = some kw) (hu : u ≠ "") :
    (∀ ok, (post_to_blogger_draft (some a) ft (some u) src ok sm).summary.images_included
        = sm.images_included + 1) ∧
    (post_to_blogger_draft (some a) ft (some u) src false sm).summary.articles_posted
        = sm.articles_posted ∧
    (post_to_blogger_draft (some a) ft (some u) src false sm).postId = none := by
  refine ⟨fun ok => ?_, ?_, ?_⟩ <;>
    simp [post_to_blogger_draft, ht, ht0, hc, hc0, hk, hu] <;> split <;> simp

/-- C10 (witness): with zeroed counters, a failed submission with an
image leaves `images_included = 1 > 0 = articles_posted`, so
`images_included` exceeds `articles_posted` within a run. -/
theorem C10_witness :
    (post_to_blogger_draft
        (some { title := some "T", meta_description := some "", keywords := some "k",
                content := some "c" })
        "Feed" (some "http://x/i.jpg") "src" false {}).summary.images_included = 1 ∧
    (post_to_blogger_draft
        (some { title := some "T", meta_description := some "", keywords := some "k",
                content := some "c" })
        "Feed" (some "http://x/i.jpg") "src" false {}).summary.articles_posted = 0 ∧
    (1 : Nat) > 0 := by
  have h := C10_images_counted_before_submission
    { title := some "T", meta_description := some "", keywords := some "k",
      content := some "c" }
    "Feed" "src" "http://x/i.jpg" {} "T" "c" "k"
    rfl (by decide) rfl (by decide) rfl (by decide)
  exact ⟨h.1 false, h.2.1, by decide⟩

/-! ## Claim C4 — rewrite-response parsing fallbacks -/

/-- C4: the parser always produces a four-field result (the invoker
never fails solely because sections are missing), and each missing
labeled section falls back to its default: the original title, the
empty string for meta description and keywords, and the full raw
response for content (src/rss_to_blogger.py:177-188). -/
theorem C4_parse_fallbacks (origTitle raw : String) :
    (rewrite_article origTitle (some raw)).isSome = true ∧
    (findLabeledLine titleLab raw.data = none →
      (parse_rewrite origTitle raw).title = some origTitle) ∧
    (findLabeledLine metaLab raw.data = none →
      (parse_rewrite origTitle raw).meta_description = some "") ∧
    (findLabeledLine keywordsLab raw.data = none →
      (parse_rewrite origTitle raw).keywords = some "") ∧
    (findLabeledRest contentLab raw.data = none →
      (parse_rewrite origTitle raw).content = some raw) := by
  refine ⟨rfl, ?_, ?_, ?_, ?_⟩ <;> intro h <;> simp [parse_rewrite, h]

/-- C4 (witness): a service response with no labeled section at all
yields the original title, empty meta description and keywords, and
the full raw response as content. -/
theorem C4_witness :
    (parse_rewrite "Orig" "hello world").title = some "Orig" ∧
    (parse_rewrite "Orig" "hello world").meta_description = some "" ∧
    (parse_rewrite "Orig" "hello world").keywords = some "" ∧
    (parse_rewrite "Orig" "hello world").content = some "hello world" :=
  ⟨(C4_parse_fallbacks "Orig" "hello world").2.1 (by decide),
   (C4_parse_fallbacks "Orig" "hello world").2.2.1 (by decide),
   (C4_parse_fallbacks "Orig" "hello world").2.2.2.1 (by decide),
   (C4_parse_fallbacks "Orig" "hello world").2.2.2.2 (by decide)⟩
